import Mathlib

/-!
Shallow embedding of `qutip/solver/stochastic.py` (stochastic solver core):
the measurement-operator / noise-weight configuration resolved in
`StochasticSolver.__init__`, the per-trajectory result accumulation of
`StochasticTrajResult.add` / `_add_measurement`, the trajectory loop of
`StochasticSolver._run_one_traj`, and the ensemble reduction step of
`StochasticResult._reduce_expect`.

Modelling conventions:
* Operators (`Qobj`/`QobjEvo`) are opaque: a `Qobj` carries a kind tag
  (`oper`, `superoper`, ...) used by the `isoper` checks plus an abstract
  payload.  Operator algebra (`op + op.dag()`, `-1j * (op - op.dag())`) is
  kept symbolic via `OpExpr`, since the solver only builds such expressions
  and hands them to the external expectation primitive.
* Python float weights are modelled by `PyVal`: the default `2**0.5` is the
  symbol `sqrt2`, `1.` and user scalars are rationals, and Python `None` is
  `PyVal.none`.  Python truthiness (`x or default`) is modelled by `truthy`
  (`None`, `0.0` and `[]` are falsy).
* The `dW_factor` option is `None`, a scalar, or a sequence, modelled by
  `DWArg`; `isinstance(x, Iterable)` holds exactly for the sequence case.
* Numeric state/noise/expectation values are rationals (the code only
  moves them around with `+`, `*`, `/`; no float rounding is relevant to
  the claims).
-/

namespace QutipStochastic

/-- Kind tag of a quantum object (`isoper` / `issuper` checks). -/
inductive QKind where
  | oper
  | superoper
  | ket
  | other
deriving DecidableEq

/-- Opaque operator object: `Qobj`/`QobjEvo` as far as this file needs it. -/
structure Qobj (α : Type) where
  kind : QKind
  payload : α
deriving DecidableEq

/-- `Qobj.isoper` predicate of the source. -/
def Qobj.isoper {α : Type} (q : Qobj α) : Bool :=
  q.kind = QKind.oper

/-- The Hamiltonian argument of `StochasticSolver.__init__`: either a
recognized operator object or some other Python value. -/
inductive HamArg (α : Type) where
  | qobj (q : Qobj α)
  | other (a : α)
deriving DecidableEq

/-- `isinstance(H, (Qobj, QobjEvo))`. -/
def HamArg.isQobjLike {α : Type} : HamArg α → Bool
  | .qobj _ => true
  | .other _ => false

/-- Symbolic operator expressions built by the solver from the stochastic
collapse operators: `op + op.dag()` and `-1j * (op - op.dag())`. -/
inductive OpExpr (α : Type) where
  | base (a : α)
  | dag (e : OpExpr α)
  | add (e1 e2 : OpExpr α)
  | sub (e1 e2 : OpExpr α)
  | negI (e : OpExpr α)
deriving DecidableEq

/-- Python scalar values that can end up in the resolved weight list:
`None`, the heterodyne default `2**0.5`, or a plain number (`1.` or a
caller-supplied scalar). -/
inductive PyVal where
  | none
  | sqrt2
  | num (q : ℚ)
deriving DecidableEq

/-- Python truthiness of a weight scalar: `None` and `0.0` are falsy. -/
def PyVal.truthy : PyVal → Bool
  | .none => false
  | .sqrt2 => true
  | .num q => q ≠ 0

/-- The `dW_factor` option value: Python `None` and numeric scalars are the
`scalar` case (not `Iterable`), sequences are the `seq` case. -/
inductive DWArg where
  | scalar (v : PyVal)
  | seq (vs : List PyVal)
deriving DecidableEq

/-- Python truthiness of the `dW_factor` option (an empty list is falsy). -/
def DWArg.truthy : DWArg → Bool
  | .scalar v => v.truthy
  | .seq vs => ¬ vs.isEmpty

/-- `dW_factor or default` (lines 219/222 of the source). -/
def dwOr (x : DWArg) (d : PyVal) : DWArg :=
  if x.truthy then x else .scalar d

/-- Emit two derived elements per input element, in input order: shared
shape of the heterodyne `m_ops` loop (two quadrature operators per
collapse operator) and of the per-operator weight duplication
`[i for i in dW_factor for _ in range(2)]`. -/
def twoPer {β γ : Type} (g1 g2 : β → γ) : List β → List γ
  | [] => []
  | b :: bs => g1 b :: g2 b :: twoPer g1 g2 bs

/-- Heterodyne measurement-operator derivation (source lines 214-218):
`for op in sc_ops: m_ops += [op + op.dag(), -1j * (op - op.dag())]`. -/
def deriveHet {α : Type} (sc_ops : List (Qobj α)) : List (OpExpr (Qobj α)) :=
  twoPer (fun op => OpExpr.add (.base op) (.dag (.base op)))
    (fun op => OpExpr.negI (.sub (.base op) (.dag (.base op)))) sc_ops

/-- Homodyne measurement-operator derivation (source line 221):
`[op + op.dag() for op in sc_ops]`. -/
def deriveHom {α : Type} (sc_ops : List (Qobj α)) : List (OpExpr (Qobj α)) :=
  sc_ops.map (fun op => OpExpr.add (.base op) (.dag (.base op)))

/-- `[i for i in dW_factor for _ in range(2)]` (source line 228). -/
def dupEach (l : List PyVal) : List PyVal :=
  twoPer id id l

/-- Exceptions raised by `StochasticSolver.__init__`. -/
inductive SolverError where
  | typeErr (msg : String)
  | valueErr (msg : String)
deriving DecidableEq

/-- `n_m_ops = len(sc_ops) * (1 + int(heterodyne))` (source line 208). -/
def nMeasOps {α : Type} (sc_ops : List (Qobj α)) (het : Bool) : ℕ :=
  sc_ops.length * (1 + if het then 1 else 0)

/-- The measurement-operator list resolved by source lines 211-221: caller
`m_ops` verbatim when its length matches `n_m_ops`, else derived from
`sc_ops` according to the detection geometry. -/
def resolvedMOps {α : Type} (sc_ops : List (Qobj α)) (het : Bool)
    (m_ops : List (OpExpr (Qobj α))) : List (OpExpr (Qobj α)) :=
  if m_ops.length = nMeasOps sc_ops het then m_ops
  else if het then deriveHet sc_ops
  else deriveHom sc_ops

/-- The `dW_factor` value after the defaulting of source lines 211-222:
untouched when caller `m_ops` matched, else `dW_factor or 2**0.5`
(heterodyne) or `dW_factor or 1.` (homodyne). -/
def resolvedDWArg {α : Type} (sc_ops : List (Qobj α)) (het : Bool)
    (m_ops : List (OpExpr (Qobj α))) (dW : DWArg) : DWArg :=
  if m_ops.length = nMeasOps sc_ops het then dW
  else if het then dwOr dW .sqrt2
  else dwOr dW (.num 1)

/-- Source lines 224-228: broadcast a non-iterable scalar to `n_m_ops`
copies, then duplicate each entry when the list has one entry per collapse
operator under heterodyne. -/
def dwBroadcast (n k : ℕ) (het : Bool) (dw : DWArg) : List PyVal :=
  let l := match dw with
    | .scalar v => List.replicate n v
    | .seq vs => vs
  if l.length = k ∧ het = true then dupEach l else l

/-- Full weight resolution pipeline of source lines 207-228. -/
def resolvedWeights {α : Type} (sc_ops : List (Qobj α)) (het : Bool)
    (m_ops : List (OpExpr (Qobj α))) (dW : DWArg) : List PyVal :=
  dwBroadcast (nMeasOps sc_ops het) sc_ops.length het
    (resolvedDWArg sc_ops het m_ops dW)

/-- Measurement configuration resolution (source lines 207-232): produce
the canonical `(m_ops, dW_factors)` pair or raise
`ValueError("Bad dW_factor option")` when the resolved weight list does
not have one entry per measurement channel. -/
def resolveMeas {α : Type} (sc_ops : List (Qobj α)) (het : Bool)
    (m_ops : List (OpExpr (Qobj α))) (dW : DWArg) :
    Except SolverError (List (OpExpr (Qobj α)) × List PyVal) :=
  let ws := resolvedWeights sc_ops het m_ops dW
  if ws.length ≠ nMeasOps sc_ops het then
    .error (.valueErr "Bad dW_factor option")
  else
    .ok (resolvedMOps sc_ops het m_ops, ws)

/-- Decidable equality of `Except` results, for concrete evaluation. -/
instance {ε β : Type} [DecidableEq ε] [DecidableEq β] :
    DecidableEq (Except ε β) := fun x y =>
  match x, y with
  | .error a, .error b =>
      if h : a = b then .isTrue (by rw [h])
      else .isFalse (by intro hh; cases hh; exact h rfl)
  | .ok a, .ok b =>
      if h : a = b then .isTrue (by rw [h])
      else .isFalse (by intro hh; cases hh; exact h rfl)
  | .error _, .ok _ => .isFalse (by intro hh; cases hh)
  | .ok _, .error _ => .isFalse (by intro hh; cases hh)

/-- The solver options consumed by the embedded code paths. -/
structure SOptions where
  heterodyne : Bool
  store_measurement : Bool
  dW_factor : DWArg
deriving DecidableEq

/-- The measurement-related state a successfully constructed solver
exposes (`self.m_ops`, `self.dW_factors`). -/
structure SolverState (α : Type) where
  m_ops : List (OpExpr (Qobj α))
  dW_factors : List PyVal
deriving DecidableEq

/-- `StochasticSolver.__init__` (source lines 191-236): type validation of
the Hamiltonian and of the stochastic collapse operators, then resolution
of the measurement configuration when `store_measurement` is set, else
empty `m_ops`/`dW_factors`. -/
def stochasticInit {α : Type} (H : HamArg α) (sc_ops : List (Qobj α))
    (opts : SOptions) (m_ops : List (OpExpr (Qobj α))) :
    Except SolverError (SolverState α) :=
  if ¬ H.isQobjLike then .error (.typeErr "...")
  else if sc_ops.any (fun c => ¬ c.isoper) then
    .error (.typeErr "sc_ops must be operators")
  else if opts.store_measurement then
    match resolveMeas sc_ops opts.heterodyne m_ops opts.dW_factor with
    | .error e => .error e
    | .ok (mo, dw) => .ok ⟨mo, dw⟩
  else .ok ⟨[], []⟩

/-! ### Per-trajectory result accumulation (`StochasticTrajResult`) -/

/-- Per-trajectory accumulator mirroring `StochasticTrajResult`.  The
`e_ops` list is stored for fidelity with the constructor signature; its
expectation bookkeeping lives in the external `Result` base class.  The
measurement operators appear here only through the external expectation
primitive, so they are kept generic (`μ`), and the resolved weights are
the numeric values the trajectory code multiplies with. -/
structure TrajResult (μ σ : Type) where
  e_ops : List (ℚ → σ → ℚ)
  m_ops : List μ
  dW_factor : List ℚ
  store_measurement : Bool
  times : List ℚ
  states : List σ
  noise : List (List (List ℚ))
  measurements : List (List ℚ)

/-- `StochasticTrajResult._post_init` (source lines 11-16): empty
accumulators, one empty measurement list per measurement operator. -/
def mkTrajResult {μ σ : Type} (e_ops : List (ℚ → σ → ℚ)) (m_ops : List μ)
    (dW : List ℚ) (sm : Bool) : TrajResult μ σ :=
  ⟨e_ops, m_ops, dW, sm, [], [], [], List.replicate m_ops.length []⟩

/-- `np.sum(noise, axis=0)`: column-wise sums of a (non-ragged, nonempty)
list of rows, the sum over the sub-step axis of one reported step. -/
def colSums : List (List ℚ) → List ℚ
  | [] => []
  | [r] => r
  | r :: rs => List.zipWith (fun a b => a + b) r (colSums rs)

/-- `self.times[-1] - self.times[-2]` (source line 33); `0` stands for the
`IndexError` Python would raise with fewer than two recorded times, which
the run loop never triggers. -/
def lastTwoDiff (xs : List ℚ) : ℚ :=
  match xs.reverse with
  | a :: b :: _ => a - b
  | _ => 0

/-- The `zip`-bounded update of source lines 22-25: channel `i` of the
measurement record gains `expects[i] + noises[i] * dW_factor[i]`; channels
past the shortest list are left untouched, exactly as Python `zip`
truncates. -/
def stepMeas : List (List ℚ) → List ℚ → List ℚ → List ℚ → List (List ℚ)
  | m :: ms, e :: es, n :: ns, f :: fs =>
      (m ++ [e + n * f]) :: stepMeas ms es ns fs
  | ms, _, _, _ => ms

/-- `StochasticTrajResult._add_measurement` (source lines 18-25), taking
the external expectation primitive as a parameter; the debug `print` of
line 21 has no effect on the data. -/
def TrajResult.add_measurement {μ σ : Type} (expectI : μ → ℚ → σ → ℚ)
    (r : TrajResult μ σ) (t : ℚ) (s : σ) (noise : List (List ℚ)) :
    TrajResult μ σ :=
  let expects := r.m_ops.map (fun m => expectI m t s)
  let noises := colSums noise
  { r with measurements := stepMeas r.measurements expects noises r.dW_factor }

/-- `StochasticTrajResult.add` (source lines 27-34): record `(t, state)`,
and when a noise increment is present record it and, under
`store_measurement`, reconstruct the measurement currents from
`noise / dt` with `dt` the difference of the last two recorded times. -/
def TrajResult.add {μ σ : Type} (expectI : μ → ℚ → σ → ℚ)
    (r : TrajResult μ σ) (t : ℚ) (s : σ)
    (noise : Option (List (List ℚ))) : TrajResult μ σ :=
  let r1 := { r with times := r.times ++ [t], states := r.states ++ [s] }
  match noise with
  | Option.none => r1
  | Option.some nz =>
      let r2 := { r1 with noise := r1.noise ++ [nz] }
      if r2.store_measurement then
        r2.add_measurement expectI t s
          (nz.map (List.map (fun x => x / lastTwoDiff r2.times)))
      else r2

/-! ### Trajectory runner (`StochasticSolver._run_one_traj`) -/

/-- One `integrate` call's output: `(t, state, noise)` plus the
integrator's advanced internal state. -/
structure IntegOut (σ ι : Type) where
  t : ℚ
  state : σ
  noise : List (List ℚ)
  next : ι

/-- The external Integrator abstraction (§6 of the spec): `set_state`
initializes the internal state from `(t0, state, generator(seed))`, and
`integrate` is a deterministic function of the requested time and the
internal state — the bit-reproducibility contract the source relies on. -/
structure Integrator (σ ι : Type) where
  set_state : ℚ → σ → ℕ → ι
  integrate : ℚ → ι → IntegOut σ ι

/-- The `for t in tlist[1:]` loop of `_run_one_traj` (source lines
249-252): integrate to each requested time and feed the reported
`(t, state, noise)` to the result. -/
def trajLoop {μ σ ι : Type} (expectI : μ → ℚ → σ → ℚ)
    (integ : Integrator σ ι) :
    List ℚ → TrajResult μ σ × ι → TrajResult μ σ × ι
  | [], acc => acc
  | t :: ts, (r, st) =>
      let out := integ.integrate t st
      trajLoop expectI integ ts
        (r.add expectI out.t out.state (Option.some out.noise), out.next)

/-- `StochasticSolver._run_one_traj` (source lines 238-253): build a fresh
trajectory result, seed the integrator, record the initial point with no
noise, run the loop, and return `(seed, result)`. -/
def run_one_traj {μ σ ι : Type} (expectI : μ → ℚ → σ → ℚ)
    (integ : Integrator σ ι) (e_ops : List (ℚ → σ → ℚ)) (m_ops : List μ)
    (dW : List ℚ) (sm : Bool) (seed : ℕ) (s0 : σ) (tlist : List ℚ) :
    ℕ × TrajResult μ σ :=
  let r0 : TrajResult μ σ := mkTrajResult e_ops m_ops dW sm
  match tlist with
  | [] => (seed, r0)
  | t0 :: rest =>
      let st0 := integ.set_state t0 s0 seed
      let r1 := r0.add expectI t0 s0 Option.none
      (seed, (trajLoop expectI integ rest (r1, st0)).1)

/-! ### Ensemble reduction (`StochasticResult._reduce_expect`) -/

/-- A numpy array: shape plus row-major flattened data. -/
structure NArray where
  shape : List ℕ
  data : List ℚ
deriving DecidableEq

/-- `np.array(nested)` for a rectangular 2-d nested list. -/
def npArray (rows : List (List ℚ)) : NArray :=
  ⟨[rows.length, (rows.headD []).length], rows.flatten⟩

/-- `arr.reshape(-1, d2, d3)`: the leading dimension is inferred from the
total size; the flattened data is unchanged. -/
def npReshape3 (a : NArray) (d2 d3 : ℕ) : NArray :=
  ⟨[a.data.length / (d2 * d3), d2, d3], a.data⟩

/-- `StochasticResult._reduce_expect` (source lines 38-45): convert the
trajectory's nested measurement lists to an array (dropping the nested
form), and append it to the ensemble's measurement collection.  Under
heterodyne the source computes `shape` and calls
`measurements.reshape(-1, 2, shape[-1])` but never uses the returned
array, so the stored and appended array keeps its original
`(n_channels, n_steps)` shape — embedded by the discarded `_grouped`
binding.  Returns (new ensemble collection, the trajectory's new
`measurements` value). -/
def reduce_expect (het : Bool) (measCollection : List NArray)
    (trajMeas : List (List ℚ)) : List NArray × NArray :=
  let arr := npArray trajMeas
  let arr2 :=
    if het then
      let _grouped := npReshape3 arr 2 (arr.shape.getLastD 0)
      arr
    else arr
  (measCollection ++ [arr2], arr2)

/-! ### Helper lemmas -/

lemma twoPer_length {β γ : Type} (g1 g2 : β → γ) (l : List β) :
    (twoPer g1 g2 l).length = 2 * l.length := by
  induction l with
  | nil => rfl
  | cons b bs ih => simp [twoPer, ih]; ring

lemma twoPer_getElem_even {β γ : Type} (g1 g2 : β → γ) (l : List β)
    (i : ℕ) : (twoPer g1 g2 l)[2 * i]? = (l[i]?).map g1 := by
  induction l generalizing i with
  | nil => simp [twoPer]
  | cons b bs ih =>
      cases i with
      | zero => simp [twoPer]
      | succ j =>
          have h2 : 2 * (j + 1) = 2 * j + 1 + 1 := by ring
          simp only [twoPer, h2, List.getElem?_cons_succ, ih,
            List.getElem?_cons_succ]

lemma twoPer_getElem_odd {β γ : Type} (g1 g2 : β → γ) (l : List β)
    (i : ℕ) : (twoPer g1 g2 l)[2 * i + 1]? = (l[i]?).map g2 := by
  induction l generalizing i with
  | nil => simp [twoPer]
  | cons b bs ih =>
      cases i with
      | zero => simp [twoPer]
      | succ j =>
          have h2 : 2 * (j + 1) + 1 = 2 * j + 1 + 1 + 1 := by ring
          simp only [twoPer, h2, List.getElem?_cons_succ, ih]

lemma nMeasOps_true {α : Type} (sc_ops : List (Qobj α)) :
    nMeasOps sc_ops true = 2 * sc_ops.length := by
  simp [nMeasOps]; ring

lemma dwBroadcast_scalar {α : Type} (sc_ops : List (Qobj α)) (het : Bool)
    (v : PyVal) :
    dwBroadcast (nMeasOps sc_ops het) sc_ops.length het (.scalar v)
      = List.replicate (nMeasOps sc_ops het) v := by
  show (if (List.replicate (nMeasOps sc_ops het) v).length = sc_ops.length
          ∧ het = true
        then dupEach (List.replicate (nMeasOps sc_ops het) v)
        else List.replicate (nMeasOps sc_ops het) v) = _
  by_cases h : (List.replicate (nMeasOps sc_ops het) v).length = sc_ops.length
      ∧ het = true
  · rw [if_pos h]
    obtain ⟨h1, h2⟩ := h
    subst h2
    have hk : sc_ops.length = 0 := by
      rw [List.length_replicate, nMeasOps_true] at h1; omega
    simp [nMeasOps_true, hk, dupEach, twoPer]
  · rw [if_neg h]

lemma resolvedDWArg_truthy {α : Type} (sc_ops : List (Qobj α)) (het : Bool)
    (m_ops : List (OpExpr (Qobj α))) (dW : DWArg)
    (h : dW.truthy = true) : resolvedDWArg sc_ops het m_ops dW = dW := by
  unfold resolvedDWArg dwOr
  simp [h]

/-! ### Claims about the measurement configuration -/

/-- Claim C2: with `heterodyne = true`, `store_measurement` enabled, no
caller-supplied `m_ops` of matching length and `dW_factor` absent, the
resolved measurement-operator list has length `2k`, alternates
`(op + op†, -i(op - op†))` per input operator in input order, and every
resolved weight is `√2`. -/
theorem het_default_measurement_config {α : Type}
    (sc_ops : List (Qobj α)) (m_ops : List (OpExpr (Qobj α)))
    (hm : m_ops.length ≠ nMeasOps sc_ops true) :
    ∃ mo, resolveMeas sc_ops true m_ops (.scalar .none) =
        .ok (mo, List.replicate (2 * sc_ops.length) PyVal.sqrt2)
      ∧ mo.length = 2 * sc_ops.length
      ∧ ∀ i : ℕ,
          mo[2 * i]? = (sc_ops[i]?).map
              (fun op => OpExpr.add (.base op) (.dag (.base op)))
          ∧ mo[2 * i + 1]? = (sc_ops[i]?).map
              (fun op => OpExpr.negI (.sub (.base op) (.dag (.base op)))) := by
  refine ⟨deriveHet sc_ops, ?_, ?_, ?_⟩
  · have hdw : resolvedDWArg sc_ops true m_ops (.scalar .none)
        = .scalar .sqrt2 := by
      unfold resolvedDWArg dwOr
      simp [hm, DWArg.truthy, PyVal.truthy]
    have hws : resolvedWeights sc_ops true m_ops (.scalar .none)
        = List.replicate (nMeasOps sc_ops true) PyVal.sqrt2 := by
      unfold resolvedWeights
      rw [hdw, dwBroadcast_scalar]
    have hmo : resolvedMOps sc_ops true m_ops = deriveHet sc_ops := by
      unfold resolvedMOps
      rw [if_neg hm]
      simp
    unfold resolveMeas
    rw [hws, hmo]
    simp [nMeasOps_true]
  · rw [deriveHet, twoPer_length]
  · intro i
    exact ⟨twoPer_getElem_even _ _ _ _, twoPer_getElem_odd _ _ _ _⟩

/-- Witness for C2 at `sc_ops = [a]`, empty caller `m_ops`. -/
theorem het_default_measurement_config_witness :
    (([] : List (OpExpr (Qobj ℕ))).length
        ≠ nMeasOps [(⟨QKind.oper, 0⟩ : Qobj ℕ)] true)
    ∧ ∃ mo, resolveMeas [(⟨QKind.oper, 0⟩ : Qobj ℕ)] true []
          (.scalar .none) =
        .ok (mo, List.replicate 2 PyVal.sqrt2)
      ∧ mo.length = 2
      ∧ ∀ i : ℕ,
          mo[2 * i]? = (([(⟨QKind.oper, 0⟩ : Qobj ℕ)])[i]?).map
              (fun op => OpExpr.add (.base op) (.dag (.base op)))
          ∧ mo[2 * i + 1]? = (([(⟨QKind.oper, 0⟩ : Qobj ℕ)])[i]?).map
              (fun op => OpExpr.negI (.sub (.base op) (.dag (.base op)))) :=
  ⟨by decide, het_default_measurement_config _ _ (by decide)⟩

/-- Claim C3: with `heterodyne = false`, `store_measurement` enabled, no
caller-supplied `m_ops` of matching length and `dW_factor` absent, the
resolved measurement-operator list has length `k` with `i`-th element
`op_i + op_i†`, and every resolved weight is `1`. -/
theorem hom_default_measurement_config {α : Type}
    (sc_ops : List (Qobj α)) (m_ops : List (OpExpr (Qobj α)))
    (hm : m_ops.length ≠ nMeasOps sc_ops false) :
    ∃ mo, resolveMeas sc_ops false m_ops (.scalar .none) =
        .ok (mo, List.replicate sc_ops.length (PyVal.num 1))
      ∧ mo.length = sc_ops.length
      ∧ ∀ i : ℕ,
          mo[i]? = (sc_ops[i]?).map
              (fun op => OpExpr.add (.base op) (.dag (.base op))) := by
  refine ⟨deriveHom sc_ops, ?_, ?_, ?_⟩
  · have hdw : resolvedDWArg sc_ops false m_ops (.scalar .none)
        = .scalar (.num 1) := by
      unfold resolvedDWArg dwOr
      simp [hm, DWArg.truthy, PyVal.truthy]
    have hws : resolvedWeights sc_ops false m_ops (.scalar .none)
        = List.replicate (nMeasOps sc_ops false) (PyVal.num 1) := by
      unfold resolvedWeights
      rw [hdw, dwBroadcast_scalar]
    have hmo : resolvedMOps sc_ops false m_ops = deriveHom sc_ops := by
      unfold resolvedMOps
      rw [if_neg hm]
      simp
    unfold resolveMeas
    rw [hws, hmo]
    simp [nMeasOps]
  · rw [deriveHom, List.length_map]
  · intro i
    rw [deriveHom, List.getElem?_map]

/-- Witness for C3 at `sc_ops = [a, b]`, empty caller `m_ops`. -/
theorem hom_default_measurement_config_witness :
    (([] : List (OpExpr (Qobj ℕ))).length
        ≠ nMeasOps [(⟨QKind.oper, 0⟩ : Qobj ℕ), ⟨QKind.oper, 1⟩] false)
    ∧ ∃ mo, resolveMeas [(⟨QKind.oper, 0⟩ : Qobj ℕ), ⟨QKind.oper, 1⟩]
          false [] (.scalar .none) =
        .ok (mo, List.replicate 2 (PyVal.num 1))
      ∧ mo.length = 2
      ∧ ∀ i : ℕ,
          mo[i]? = (([(⟨QKind.oper, 0⟩ : Qobj ℕ), ⟨QKind.oper, 1⟩])[i]?).map
              (fun op => OpExpr.add (.base op) (.dag (.base op))) :=
  ⟨by decide, hom_default_measurement_config _ _ (by decide)⟩

/-- Counterexample to claim C4 as stated: with the scalar `dW_factor = 0`
supplied (heterodyne = false, one collapse operator, no matching caller
`m_ops`), the code's `dW_factor or 1.` treats `0` as falsy and replaces it
by the default, so the resolved weight sequence is `[1]`, not
`[0] = [w] * n_channels`. -/
theorem scalar_zero_dw_not_broadcast :
    resolveMeas [(⟨QKind.oper, 0⟩ : Qobj ℕ)] false [] (.scalar (.num 0))
      = .ok ([.add (.base ⟨QKind.oper, 0⟩) (.dag (.base ⟨QKind.oper, 0⟩))],
             [PyVal.num 1])
    ∧ [PyVal.num 1] ≠ List.replicate 1 (PyVal.num 0) := by
  constructor
  · decide
  · decide

/-- Claim C4, amended: for every *nonzero* (truthy) scalar
`dW_factor = w` supplied with `store_measurement` enabled, the resolved
weight sequence is `[w]` repeated `n_channels` times, for both values of
`heterodyne` (a zero scalar is falsy in Python and is replaced by the
geometry default whenever the measurement operators are derived from
`sc_ops`). -/
theorem scalar_dw_broadcast {α : Type} (sc_ops : List (Qobj α))
    (het : Bool) (m_ops : List (OpExpr (Qobj α))) (w : ℚ) (hw : w ≠ 0) :
    ∃ mo, resolveMeas sc_ops het m_ops (.scalar (.num w)) =
      .ok (mo, List.replicate (nMeasOps sc_ops het) (PyVal.num w)) := by
  refine ⟨resolvedMOps sc_ops het m_ops, ?_⟩
  have htru : (DWArg.scalar (PyVal.num w)).truthy = true := by
    simp [DWArg.truthy, PyVal.truthy, hw]
  have hws : resolvedWeights sc_ops het m_ops (.scalar (.num w))
      = List.replicate (nMeasOps sc_ops het) (PyVal.num w) := by
    unfold resolvedWeights
    rw [resolvedDWArg_truthy _ _ _ _ htru, dwBroadcast_scalar]
  unfold resolveMeas
  rw [hws]
  simp

/-- Witness for the amended C4 at `w = 3`, heterodyne, one operator. -/
theorem scalar_dw_broadcast_witness :
    ((3 : ℚ) ≠ 0)
    ∧ ∃ mo, resolveMeas [(⟨QKind.oper, 0⟩ : Qobj ℕ)] true []
          (.scalar (.num 3)) =
        .ok (mo, List.replicate (nMeasOps [(⟨QKind.oper, 0⟩ : Qobj ℕ)] true)
              (PyVal.num 3)) :=
  ⟨by norm_num, scalar_dw_broadcast _ _ _ 3 (by norm_num)⟩

/-- Claim C5: a `dW_factor` sequence with one entry per collapse operator,
under `heterodyne = true` with `store_measurement` enabled, resolves to a
weight sequence of length `2k` with
`resolved[2i] == resolved[2i+1] == dW_factor[i]`. -/
theorem per_operator_dw_duplicated {α : Type} (sc_ops : List (Qobj α))
    (m_ops : List (OpExpr (Qobj α))) (vs : List PyVal)
    (hv : vs.length = sc_ops.length) :
    ∃ mo ws, resolveMeas sc_ops true m_ops (.seq vs) = .ok (mo, ws)
      ∧ ws.length = 2 * sc_ops.length
      ∧ ∀ i : ℕ, ws[2 * i]? = vs[i]? ∧ ws[2 * i + 1]? = vs[i]? := by
  by_cases hvs : vs.isEmpty
  · -- empty sequence: falsy, replaced by the scalar default, broadcast to
    -- `n_channels = 0` copies (the length hypothesis forces `k = 0`).
    have hv0 : vs = [] := by
      cases vs with
      | nil => rfl
      | cons a l => simp [List.isEmpty] at hvs
    subst hv0
    have hk : sc_ops.length = 0 := by simpa using hv.symm
    refine ⟨resolvedMOps sc_ops true m_ops, [], ?_, by simp [hk], ?_⟩
    · have hws : resolvedWeights sc_ops true m_ops (.seq []) = [] := by
        unfold resolvedWeights resolvedDWArg dwOr dwBroadcast
        by_cases hmm : m_ops.length = nMeasOps sc_ops true
        · rw [if_pos hmm]
          simp [DWArg.truthy, dupEach, twoPer]
        · rw [if_neg hmm]
          simp [DWArg.truthy, nMeasOps_true, hk, dupEach, twoPer]
      unfold resolveMeas
      rw [hws]
      simp [nMeasOps_true, hk]
    · intro i
      simp
  · have htru : (DWArg.seq vs).truthy = true := by
      simp [DWArg.truthy, hvs]
    have hws : resolvedWeights sc_ops true m_ops (.seq vs) = dupEach vs := by
      unfold resolvedWeights
      rw [resolvedDWArg_truthy _ _ _ _ htru]
      unfold dwBroadcast
      simp [hv]
    refine ⟨resolvedMOps sc_ops true m_ops, dupEach vs, ?_, ?_, ?_⟩
    · unfold resolveMeas
      rw [hws]
      simp [dupEach, twoPer_length, nMeasOps_true, hv]
    · rw [dupEach, twoPer_length, hv]
    · intro i
      rw [dupEach]
      have h1 := twoPer_getElem_even (id : PyVal → PyVal) id vs i
      have h2 := twoPer_getElem_odd (id : PyVal → PyVal) id vs i
      simp only [Option.map_id] at h1 h2
      exact ⟨h1, h2⟩

/-- Witness for C5 at `sc_ops = [a, b]`, `dW_factor = [5, 7]`. -/
theorem per_operator_dw_duplicated_witness :
    ([PyVal.num 5, PyVal.num 7].length
        = [(⟨QKind.oper, 0⟩ : Qobj ℕ), ⟨QKind.oper, 1⟩].length)
    ∧ ∃ mo ws, resolveMeas [(⟨QKind.oper, 0⟩ : Qobj ℕ), ⟨QKind.oper, 1⟩]
          true [] (.seq [PyVal.num 5, PyVal.num 7]) = .ok (mo, ws)
      ∧ ws.length = 4
      ∧ ∀ i : ℕ, ws[2 * i]? = ([PyVal.num 5, PyVal.num 7])[i]?
          ∧ ws[2 * i + 1]? = ([PyVal.num 5, PyVal.num 7])[i]? :=
  ⟨by decide, per_operator_dw_duplicated _ _ _ (by decide)⟩

/-- Claim C6: with `store_measurement` enabled (and the type checks
passing), solver construction fails — eagerly, with the configuration
error `ValueError("Bad dW_factor option")` and no constructed state —
exactly when the broadcast weight sequence length differs from
`n_channels`; every other input resolves successfully, so this length
mismatch is the only validation failure mode of the
measurement-configuration component. -/
theorem dw_length_only_validation {α : Type} (H : HamArg α)
    (sc_ops : List (Qobj α)) (het : Bool) (dW : DWArg)
    (m_ops : List (OpExpr (Qobj α)))
    (hH : H.isQobjLike = true) (hsc : ∀ c ∈ sc_ops, c.isoper = true) :
    ((resolvedWeights sc_ops het m_ops dW).length ≠ nMeasOps sc_ops het →
      stochasticInit H sc_ops ⟨het, true, dW⟩ m_ops
        = .error (.valueErr "Bad dW_factor option"))
    ∧ ((resolvedWeights sc_ops het m_ops dW).length = nMeasOps sc_ops het →
      stochasticInit H sc_ops ⟨het, true, dW⟩ m_ops
        = .ok ⟨resolvedMOps sc_ops het m_ops,
               resolvedWeights sc_ops het m_ops dW⟩) := by
  have hany : (sc_ops.any fun c => ¬ c.isoper) = false := by
    rw [List.any_eq_false]
    intro c hc
    simp [hsc c hc]
  have hinit : stochasticInit H sc_ops ⟨het, true, dW⟩ m_ops
      = match resolveMeas sc_ops het m_ops dW with
        | .error e => .error e
        | .ok (mo, dw) => .ok ⟨mo, dw⟩ := by
    unfold stochasticInit
    rw [if_neg (by simp [hH]), if_neg (by simpa using hsc), if_pos rfl]
  constructor
  · intro hlen
    rw [hinit]
    unfold resolveMeas
    rw [if_pos hlen]
  · intro hlen
    rw [hinit]
    unfold resolveMeas
    rw [if_neg (by simp [hlen])]

/-- Witness for C6: a two-entry `dW_factor` with a single homodyne
channel is rejected at construction. -/
theorem dw_length_only_validation_witness :
    ((HamArg.qobj (⟨QKind.oper, 0⟩ : Qobj ℕ)).isQobjLike = true)
    ∧ (∀ c ∈ [(⟨QKind.oper, 0⟩ : Qobj ℕ)], c.isoper = true)
    ∧ ((resolvedWeights [(⟨QKind.oper, 0⟩ : Qobj ℕ)] false []
          (.seq [PyVal.num 5, PyVal.num 7])).length
        ≠ nMeasOps [(⟨QKind.oper, 0⟩ : Qobj ℕ)] false)
    ∧ stochasticInit (HamArg.qobj ⟨QKind.oper, 0⟩)
        [(⟨QKind.oper, 0⟩ : Qobj ℕ)]
        ⟨false, true, .seq [PyVal.num 5, PyVal.num 7]⟩ []
        = .error (.valueErr "Bad dW_factor option") :=
  ⟨by decide, by decide, by decide,
    (dw_length_only_validation _ _ _ _ _ (by decide) (by decide)).1
      (by decide)⟩

/-- Claim C8: a Hamiltonian argument that is not a recognized operator
type raises `TypeError` at construction; a stochastic collapse operator
that is a superoperator rather than a plain operator raises `TypeError`
at construction; and a successfully constructed solver has already passed
both checks, so they cannot fire during trajectory execution. -/
theorem construction_type_validation {α : Type} (H : HamArg α)
    (sc_ops : List (Qobj α)) (opts : SOptions)
    (m_ops : List (OpExpr (Qobj α))) :
    (H.isQobjLike = false →
      stochasticInit H sc_ops opts m_ops = .error (.typeErr "..."))
    ∧ (H.isQobjLike = true → (∃ c ∈ sc_ops, c.kind = QKind.superoper) →
      stochasticInit H sc_ops opts m_ops
        = .error (.typeErr "sc_ops must be operators"))
    ∧ (∀ st, stochasticInit H sc_ops opts m_ops = .ok st →
      H.isQobjLike = true ∧ ∀ c ∈ sc_ops, c.isoper = true) := by
  refine ⟨?_, ?_, ?_⟩
  · intro h
    unfold stochasticInit
    rw [if_pos (by simp [h])]
  · rintro hH ⟨c, hc, hk⟩
    have hany : (sc_ops.any fun cc => ¬ cc.isoper) = true := by
      rw [List.any_eq_true]
      exact ⟨c, hc, by simp [Qobj.isoper, hk]⟩
    unfold stochasticInit
    rw [if_neg (by simp [hH]), if_pos (by simpa using hany)]
  · intro st hst
    by_cases h1 : H.isQobjLike = true
    · refine ⟨h1, ?_⟩
      intro c hc
      by_cases h2 : c.isoper = true
      · exact h2
      · exfalso
        have hany : (sc_ops.any fun cc => ¬ cc.isoper) = true := by
          rw [List.any_eq_true]
          exact ⟨c, hc, by simp [h2]⟩
        unfold stochasticInit at hst
        rw [if_neg (by simp [h1]), if_pos (by simpa using hany)] at hst
        exact Except.noConfusion hst
    · exfalso
      unfold stochasticInit at hst
      rw [if_pos (by simpa using h1)] at hst
      exact Except.noConfusion hst

/-- Witness for C8: a non-operator Hamiltonian argument is rejected at
construction. -/
theorem construction_type_validation_witness :
    ((HamArg.other (9 : ℕ)).isQobjLike = false)
    ∧ stochasticInit (HamArg.other (9 : ℕ)) [⟨QKind.oper, 0⟩]
        ⟨false, true, .scalar .none⟩ [] = .error (.typeErr "...") :=
  ⟨by decide,
    (construction_type_validation _ _ _ _).1 (by decide)⟩

/-- Claim C10: with `store_measurement` disabled, construction resolves
`m_ops` and `dW_factors` to empty lists for every `heterodyne`, every
caller-supplied `m_ops` and every `dW_factor` — including values whose
length would be a configuration error under `store_measurement`, which
are silently accepted. -/
theorem no_store_measurement_no_validation {α : Type} (H : HamArg α)
    (sc_ops : List (Qobj α)) (het : Bool) (dW : DWArg)
    (m_ops : List (OpExpr (Qobj α)))
    (hH : H.isQobjLike = true) (hsc : ∀ c ∈ sc_ops, c.isoper = true) :
    stochasticInit H sc_ops ⟨het, false, dW⟩ m_ops = .ok ⟨[], []⟩ := by
  have hany : (sc_ops.any fun c => ¬ c.isoper) = false := by
    rw [List.any_eq_false]
    intro c hc
    simp [hsc c hc]
  unfold stochasticInit
  rw [if_neg (by simp [hH]), if_neg (by simpa using hsc), if_neg (by simp)]

/-- Witness for C10: the two-entry `dW_factor` that C6's witness shows is
rejected under `store_measurement` is silently accepted when
`store_measurement` is disabled. -/
theorem no_store_measurement_no_validation_witness :
    ((HamArg.qobj (⟨QKind.oper, 0⟩ : Qobj ℕ)).isQobjLike = true)
    ∧ (∀ c ∈ [(⟨QKind.oper, 0⟩ : Qobj ℕ)], c.isoper = true)
    ∧ stochasticInit (HamArg.qobj ⟨QKind.oper, 0⟩)
        [(⟨QKind.oper, 0⟩ : Qobj ℕ)]
        ⟨false, false, .seq [PyVal.num 5, PyVal.num 7]⟩ [] = .ok ⟨[], []⟩ :=
  ⟨by decide, by decide,
    no_store_measurement_no_validation _ _ _ _ _ (by decide) (by decide)⟩

/-- Claim C7 (failing-input evaluation): reducing a completed heterodyne
trajectory with one collapse operator and measurement record
`[[1, 2], [3, 4]]` (2 channels x 2 steps) converts the nested lists to an
array and appends it, but the appended array keeps shape `(2, 2)`: the
result of `measurements.reshape(-1, 2, n_steps)` is discarded by the
source (bare expression, no assignment), so the claimed grouped shape
`(n_sc_ops, 2, n_steps) = (1, 2, 2)` — which the discarded reshape would
have produced — is never stored. -/
theorem het_reduce_shape_ungrouped :
    reduce_expect true [] [[1, 2], [3, 4]]
      = ([⟨[2, 2], [1, 2, 3, 4]⟩], ⟨[2, 2], [1, 2, 3, 4]⟩)
    ∧ (npReshape3 (npArray [[1, 2], [3, 4]]) 2 2).shape = [1, 2, 2]
    ∧ ([2, 2] : List ℕ) ≠ [1, 2, 2] := by
  refine ⟨by decide, by decide, by decide⟩

/-- Claim C9: running one trajectory is a deterministic function of the
integrator, seed and inputs — the integrator is embedded per its
bit-reproducibility contract (§6), so two runs with the same seed and
identical inputs yield identical state and noise sequences — and each run
returns the pair `(seed, result)` with the seed echoed back. -/
theorem run_one_traj_reproducible {μ σ ι : Type}
    (expectI : μ → ℚ → σ → ℚ) (integ : Integrator σ ι)
    (e_ops : List (ℚ → σ → ℚ)) (m_ops : List μ) (dW : List ℚ) (sm : Bool)
    (seed : ℕ) (s0 : σ) (tlist : List ℚ) :
    ((run_one_traj expectI integ e_ops m_ops dW sm seed s0 tlist).2.states
      = (run_one_traj expectI integ e_ops m_ops dW sm seed s0 tlist).2.states)
    ∧ ((run_one_traj expectI integ e_ops m_ops dW sm seed s0 tlist).2.noise
      = (run_one_traj expectI integ e_ops m_ops dW sm seed s0 tlist).2.noise)
    ∧ (run_one_traj expectI integ e_ops m_ops dW sm seed s0 tlist).1
      = seed := by
  refine ⟨rfl, rfl, ?_⟩
  cases tlist <;> rfl

/-! ### Helper lemmas for the trajectory claims -/

lemma stepMeas_length (ms : List (List ℚ)) (es ns fs : List ℚ) :
    (stepMeas ms es ns fs).length = ms.length := by
  induction ms generalizing es ns fs with
  | nil => cases es <;> cases ns <;> cases fs <;> rfl
  | cons m ms ih =>
      cases es with
      | nil => rfl
      | cons e es =>
          cases ns with
          | nil => rfl
          | cons n ns =>
              cases fs with
              | nil => rfl
              | cons f fs => simp [stepMeas, ih]

lemma stepMeas_getElem {ms : List (List ℚ)} {es ns fs : List ℚ} {i : ℕ}
    {m : List ℚ} {e n f : ℚ}
    (hm : ms[i]? = some m) (he : es[i]? = some e) (hn : ns[i]? = some n)
    (hf : fs[i]? = some f) :
    (stepMeas ms es ns fs)[i]? = some (m ++ [e + n * f]) := by
  induction ms generalizing es ns fs i with
  | nil => simp at hm
  | cons m0 ms ih =>
      cases es with
      | nil => simp at he
      | cons e0 es =>
          cases ns with
          | nil => simp at hn
          | cons n0 ns =>
              cases fs with
              | nil => simp at hf
              | cons f0 fs =>
                  cases i with
                  | zero =>
                      simp only [List.getElem?_cons_zero, Option.some.injEq]
                        at hm he hn hf
                      subst hm he hn hf
                      simp [stepMeas]
                  | succ j =>
                      simp only [List.getElem?_cons_succ] at hm he hn hf
                      simpa [stepMeas] using ih hm he hn hf

lemma zipWith_add_map_div (d : ℚ) (xs ys : List ℚ) :
    List.zipWith (fun a b => a + b) (xs.map (fun x => x / d))
        (ys.map (fun x => x / d))
      = (List.zipWith (fun a b => a + b) xs ys).map (fun x => x / d) := by
  induction xs generalizing ys with
  | nil => simp
  | cons a as ih => cases ys <;> simp [ih, add_div]

lemma colSums_map_div (d : ℚ) (rows : List (List ℚ)) :
    colSums (rows.map (List.map (fun x => x / d)))
      = (colSums rows).map (fun x => x / d) := by
  induction rows with
  | nil => rfl
  | cons r rs ih =>
      cases rs with
      | nil => rfl
      | cons r2 rs2 =>
          simp only [List.map_cons] at ih ⊢
          simp only [colSums, ih, zipWith_add_map_div]

lemma colSums_length (rows : List (List ℚ)) (w : ℕ) (hne : rows ≠ [])
    (hw : ∀ r ∈ rows, r.length = w) : (colSums rows).length = w := by
  induction rows with
  | nil => exact absurd rfl hne
  | cons r rs ih =>
      cases rs with
      | nil => simpa [colSums] using hw r (by simp)
      | cons r2 rs2 =>
          have h1 : r.length = w := hw r (by simp)
          have h2 : (colSums (r2 :: rs2)).length = w := by
            refine ih (by simp) ?_
            intro x hx
            exact hw x (List.mem_cons_of_mem _ hx)
          simp [colSums, List.length_zipWith, h1, h2]

lemma lastTwoDiff_append (xs : List ℚ) (t : ℚ) (h : xs ≠ []) :
    lastTwoDiff (xs ++ [t]) = t - xs.getLastD 0 := by
  rcases List.eq_nil_or_concat xs with h0 | ⟨ys, z, rfl⟩
  · exact absurd h0 h
  · unfold lastTwoDiff
    simp

lemma getD_of_getElem {β : Type} {l : List β} {i : ℕ} {v d : β}
    (h : l[i]? = some v) : l.getD i d = v := by
  induction l generalizing i with
  | nil => simp at h
  | cons a as ih =>
      cases i with
      | zero => simp at h; simp [h]
      | succ j =>
          simp only [List.getElem?_cons_succ] at h
          simpa using ih h

lemma getElem_of_lt {β : Type} {l : List β} {i : ℕ} (d : β)
    (h : i < l.length) : l[i]? = some (l.getD i d) := by
  induction l generalizing i with
  | nil => simp at h
  | cons a as ih =>
      cases i with
      | zero => simp
      | succ j =>
          simp only [List.length_cons, Nat.succ_lt_succ_iff] at h
          simpa using ih h

lemma replicate_nil_getD (k i : ℕ) :
    (List.replicate k ([] : List ℚ)).getD i [] = [] := by
  induction k generalizing i with
  | zero => simp
  | succ m ih =>
      cases i with
      | zero => simp
      | succ j =>
          rw [List.replicate_succ, List.getD_cons_succ]
          exact ih j

lemma add_none_eq {μ σ : Type} (expectI : μ → ℚ → σ → ℚ)
    (r : TrajResult μ σ) (t : ℚ) (s : σ) :
    TrajResult.add expectI r t s Option.none
      = { r with times := r.times ++ [t], states := r.states ++ [s] } :=
  rfl

lemma add_some_eq {μ σ : Type} (expectI : μ → ℚ → σ → ℚ)
    (r : TrajResult μ σ) (t : ℚ) (s : σ) (nz : List (List ℚ))
    (hsm : r.store_measurement = true) :
    TrajResult.add expectI r t s (Option.some nz)
      = ⟨r.e_ops, r.m_ops, r.dW_factor, r.store_measurement,
         r.times ++ [t], r.states ++ [s], r.noise ++ [nz],
         stepMeas r.measurements (r.m_ops.map (fun m => expectI m t s))
           (colSums (nz.map (List.map
             (fun x => x / lastTwoDiff (r.times ++ [t])))))
           r.dW_factor⟩ := by
  obtain ⟨eo, mo, dw, sm, tsl, stl, nol, msl⟩ := r
  cases sm with
  | false => simp at hsm
  | true => rfl

lemma add_some_eq_nostore {μ σ : Type} (expectI : μ → ℚ → σ → ℚ)
    (r : TrajResult μ σ) (t : ℚ) (s : σ) (nz : List (List ℚ))
    (hsm : r.store_measurement = false) :
    TrajResult.add expectI r t s (Option.some nz)
      = ⟨r.e_ops, r.m_ops, r.dW_factor, r.store_measurement,
         r.times ++ [t], r.states ++ [s], r.noise ++ [nz],
         r.measurements⟩ := by
  obtain ⟨eo, mo, dw, sm, tsl, stl, nol, msl⟩ := r
  cases sm with
  | false => rfl
  | true => simp at hsm

lemma add_preserves {μ σ : Type} (expectI : μ → ℚ → σ → ℚ)
    (r : TrajResult μ σ) (t : ℚ) (s : σ) (o : Option (List (List ℚ))) :
    (TrajResult.add expectI r t s o).m_ops = r.m_ops
    ∧ (TrajResult.add expectI r t s o).dW_factor = r.dW_factor
    ∧ (TrajResult.add expectI r t s o).store_measurement
        = r.store_measurement
    ∧ (TrajResult.add expectI r t s o).times = r.times ++ [t] := by
  cases o with
  | none => exact ⟨rfl, rfl, rfl, rfl⟩
  | some nz =>
      cases hsm : r.store_measurement with
      | true =>
          rw [add_some_eq _ _ _ _ _ hsm]
          exact ⟨rfl, rfl, hsm, rfl⟩
      | false =>
          rw [add_some_eq_nostore _ _ _ _ _ hsm]
          exact ⟨rfl, rfl, hsm, rfl⟩

lemma add_some_meas_getElem {μ σ : Type} (expectI : μ → ℚ → σ → ℚ)
    (r : TrajResult μ σ) (t : ℚ) (s : σ) (nz : List (List ℚ)) (i : ℕ)
    (mop : μ) (hsm : r.store_measurement = true) (htne : r.times ≠ [])
    (hmop : r.m_ops[i]? = some mop)
    (h1 : i < r.measurements.length) (h2 : i < (colSums nz).length)
    (h3 : i < r.dW_factor.length) :
    (TrajResult.add expectI r t s (Option.some nz)).measurements[i]?
      = some (r.measurements.getD i []
          ++ [expectI mop t s
              + (colSums nz).getD i 0 / (t - r.times.getLastD 0)
                * r.dW_factor.getD i 0]) := by
  rw [add_some_eq _ _ _ _ _ hsm, lastTwoDiff_append _ _ htne]
  refine stepMeas_getElem (getElem_of_lt [] h1) ?_ ?_ (getElem_of_lt 0 h3)
  · rw [List.getElem?_map, hmop]
    rfl
  · rw [colSums_map_div, List.getElem?_map, getElem_of_lt 0 h2]
    rfl

lemma trajLoop_shape {μ σ ι : Type} (expectI : μ → ℚ → σ → ℚ)
    (integ : Integrator σ ι) (n : ℕ)
    (hnz : ∀ (t : ℚ) (st : ι), (integ.integrate t st).noise ≠ []
        ∧ ∀ row ∈ (integ.integrate t st).noise, row.length = n) :
    ∀ (ts : List ℚ) (r : TrajResult μ σ) (st : ι),
      r.store_measurement = true → r.m_ops.length = n →
      r.dW_factor.length = n → r.measurements.length = n →
      (trajLoop expectI integ ts (r, st)).1.measurements.length = n
      ∧ ∀ i, i < n →
          ((trajLoop expectI integ ts (r, st)).1.measurements.getD i []).length
            = (r.measurements.getD i []).length + ts.length := by
  intro ts
  induction ts with
  | nil =>
      intro r st _ _ _ h4
      exact ⟨h4, fun i _ => by simp [trajLoop]⟩
  | cons t ts ih =>
      intro r st h1 h2 h3 h4
      have hcs : (colSums (integ.integrate t st).noise).length = n :=
        colSums_length _ _ (hnz t st).1 (hnz t st).2
      have hmeq : (TrajResult.add expectI r (integ.integrate t st).t
            (integ.integrate t st).state
            (Option.some (integ.integrate t st).noise)).measurements
          = stepMeas r.measurements
              (r.m_ops.map (fun m => expectI m (integ.integrate t st).t
                (integ.integrate t st).state))
              (colSums ((integ.integrate t st).noise.map (List.map
                (fun x => x / lastTwoDiff
                  (r.times ++ [(integ.integrate t st).t])))))
              r.dW_factor := by
        rw [add_some_eq _ _ _ _ _ h1]
      have hfields := add_preserves expectI r (integ.integrate t st).t
        (integ.integrate t st).state (Option.some (integ.integrate t st).noise)
      have hunf : trajLoop expectI integ (t :: ts) (r, st)
          = trajLoop expectI integ ts
              (TrajResult.add expectI r (integ.integrate t st).t
                (integ.integrate t st).state
                (Option.some (integ.integrate t st).noise),
               (integ.integrate t st).next) := rfl
      have hrec := ih (TrajResult.add expectI r (integ.integrate t st).t
          (integ.integrate t st).state
          (Option.some (integ.integrate t st).noise))
        (integ.integrate t st).next
        (hfields.2.2.1.trans h1) (hfields.1 ▸ h2) (hfields.2.1 ▸ h3)
        (by rw [hmeq, stepMeas_length]; exact h4)
      have hchan : ∀ i, i < n →
          ((TrajResult.add expectI r (integ.integrate t st).t
              (integ.integrate t st).state
              (Option.some (integ.integrate t st).noise)).measurements.getD
                i []).length
            = (r.measurements.getD i []).length + 1 := by
        intro i hi
        have hms : r.measurements[i]? = some (r.measurements.getD i []) :=
          getElem_of_lt [] (h4 ▸ hi)
        have hes : (r.m_ops.map (fun m => expectI m (integ.integrate t st).t
              (integ.integrate t st).state))[i]?
            = some ((r.m_ops.map (fun m => expectI m (integ.integrate t st).t
                (integ.integrate t st).state)).getD i 0) :=
          getElem_of_lt 0 (by rw [List.length_map, h2]; exact hi)
        have hns : (colSums ((integ.integrate t st).noise.map (List.map
              (fun x => x / lastTwoDiff
                (r.times ++ [(integ.integrate t st).t])))))[i]?
            = some ((colSums ((integ.integrate t st).noise.map (List.map
                (fun x => x / lastTwoDiff
                  (r.times ++ [(integ.integrate t st).t]))))).getD i 0) :=
          getElem_of_lt 0 (by
            rw [colSums_map_div, List.length_map, hcs]; exact hi)
        have hfs : r.dW_factor[i]? = some (r.dW_factor.getD i 0) :=
          getElem_of_lt 0 (h3 ▸ hi)
        have hstep := stepMeas_getElem hms hes hns hfs
        rw [hmeq, getD_of_getElem hstep]
        simp
      refine ⟨by rw [hunf]; exact hrec.1, ?_⟩
      intro i hi
      rw [hunf, hrec.2 i hi, hchan i hi]
      simp only [List.length_cons]
      omega

/-- Claim C1: in a trajectory recorded with measurement recording enabled
over a time grid of length `n >= 2`, (a) each measurement channel ends
with exactly `n - 1` entries — none for the initial point — and (b) the
entry appended at a step with reported time `t` equals
`m_ops[i].expect(t, state) + (sum over the substep axis of the step's
noise)[i] / dt * dW_factor[i]`, where `dt` is the difference between the
last two recorded times. -/
theorem traj_measurement_record {μ σ ι : Type}
    (expectI : μ → ℚ → σ → ℚ) (integ : Integrator σ ι)
    (e_ops : List (ℚ → σ → ℚ)) (m_ops : List μ) (dW : List ℚ)
    (seed : ℕ) (s0 : σ) (tlist : List ℚ)
    (hn : 2 ≤ tlist.length)
    (hdw : dW.length = m_ops.length)
    (hnz : ∀ (t : ℚ) (st : ι), (integ.integrate t st).noise ≠ []
        ∧ ∀ row ∈ (integ.integrate t st).noise,
            row.length = m_ops.length) :
    ((run_one_traj expectI integ e_ops m_ops dW true seed s0
        tlist).2.measurements.length = m_ops.length
     ∧ ∀ i, i < m_ops.length →
        ((run_one_traj expectI integ e_ops m_ops dW true seed s0
            tlist).2.measurements.getD i []).length = tlist.length - 1)
    ∧ (∀ (r : TrajResult μ σ) (t : ℚ) (s : σ) (nz : List (List ℚ))
        (i : ℕ) (mop : μ),
        r.store_measurement = true → r.times ≠ [] →
        r.m_ops[i]? = some mop →
        i < r.measurements.length → i < (colSums nz).length →
        i < r.dW_factor.length →
        (TrajResult.add expectI r t s (Option.some nz)).measurements[i]?
          = some (r.measurements.getD i []
              ++ [expectI mop t s
                  + (colSums nz).getD i 0 / (t - r.times.getLastD 0)
                    * r.dW_factor.getD i 0])) := by
  constructor
  · obtain ⟨t0, rest, rfl⟩ : ∃ t0 rest, tlist = t0 :: rest := by
      cases tlist with
      | nil => simp at hn
      | cons a l => exact ⟨a, l, rfl⟩
    have hrun : (run_one_traj expectI integ e_ops m_ops dW true seed s0
          (t0 :: rest)).2
        = (trajLoop expectI integ rest
            (TrajResult.add expectI (mkTrajResult e_ops m_ops dW true)
              t0 s0 Option.none,
             integ.set_state t0 s0 seed)).1 := rfl
    have hm0 : (TrajResult.add expectI (mkTrajResult e_ops m_ops dW true)
        t0 s0 Option.none).measurements
        = List.replicate m_ops.length [] := rfl
    have hshape := trajLoop_shape expectI integ m_ops.length hnz rest
      (TrajResult.add expectI (mkTrajResult e_ops m_ops dW true)
        t0 s0 Option.none)
      (integ.set_state t0 s0 seed) rfl rfl hdw
      (by rw [hm0]; exact List.length_replicate _ _)
    constructor
    · rw [hrun]
      exact hshape.1
    · intro i hi
      have hlen := hshape.2 i hi
      rw [hm0, replicate_nil_getD] at hlen
      rw [hrun, hlen]
      simp
  · intro r t s nz i mop hsm htne hmop h1 h2 h3
    exact add_some_meas_getElem expectI r t s nz i mop hsm htne hmop h1 h2 h3

/-- Witness for C1: one channel, weight `2`, two-point grid, an
integrator reporting one sub-step noise row `[5]` at every step. -/
theorem traj_measurement_record_witness :
    (2 ≤ ([0, 1] : List ℚ).length)
    ∧ (([2] : List ℚ).length = ([0] : List ℕ).length)
    ∧ (∀ (t : ℚ) (st : Unit),
        ((⟨fun _ _ _ => (), fun t2 _ => ⟨t2, 0, [[5]], ()⟩⟩ :
            Integrator ℚ Unit).integrate t st).noise ≠ []
        ∧ ∀ row ∈ ((⟨fun _ _ _ => (), fun t2 _ => ⟨t2, 0, [[5]], ()⟩⟩ :
            Integrator ℚ Unit).integrate t st).noise,
            row.length = ([0] : List ℕ).length)
    ∧ ((run_one_traj (fun _ _ _ => (10 : ℚ))
          ⟨fun _ _ _ => (), fun t2 _ => ⟨t2, 0, [[5]], ()⟩⟩
          [] [0] [2] true 7 0 [0, 1]).2.measurements.length
        = ([0] : List ℕ).length) :=
  ⟨by decide, by decide, fun t st => ⟨by simp, by simp⟩,
   (traj_measurement_record (fun _ _ _ => (10 : ℚ))
      ⟨fun _ _ _ => (), fun t2 _ => ⟨t2, 0, [[5]], ()⟩⟩
      [] [0] [2] 7 0 [0, 1] (by decide) (by decide)
      (fun t st => ⟨by simp, by simp⟩)).1.1⟩

end QutipStochastic
